import Mathlib

/-!
Shallow embedding of the veracruz-vfs-bench benchmark pipeline
(bench.py, bench-block-sizes.py, graph.py, graph-block-sizes.py,
graph-relative-summary.py) and proofs about it.

Conventions of the embedding:
* Python floats are modelled as exact rationals (`ℚ`); the float operations
  the scripts perform (division, subtraction, comparison, `min`, `max`,
  `sum`) are modelled by the corresponding exact operations.
* Fallible computations (a list comprehension that can raise
  `ZeroDivisionError`, `min` of a possibly empty list) return `Option`.
* Python `str` values are Lean `String`s; `'%09x' % n` and `'%s' % n`
  are modelled by explicit digit-list constructions so that everything
  evaluates by kernel reduction.
* The external job execution (`make`, `vc-fee`, `wasmtime`, matplotlib)
  is a black box; only the data the scripts hand to it is modelled.
-/

namespace VfsBench

/-- The JSON result record written by one benchmark job and consumed by the
aggregation and graph scripts: `{"name": str, "size": int, "block_size": int,
"runtime": float}`. -/
structure ResultRecord where
  name : String
  size : Nat
  block_size : Nat
  runtime : ℚ
deriving DecidableEq, Repr

/-- Decimal digit character, as produced by Python `'%s' % n` for one digit. -/
def digitChar (d : Nat) : Char :=
  match d with
  | 0 => '0' | 1 => '1' | 2 => '2' | 3 => '3' | 4 => '4'
  | 5 => '5' | 6 => '6' | 7 => '7' | 8 => '8' | _ => '9'

/-- Lowercase hexadecimal digit character, as produced by Python `'%x'`. -/
def hexDigitChar (d : Nat) : Char :=
  match d with
  | 0 => '0' | 1 => '1' | 2 => '2' | 3 => '3' | 4 => '4'
  | 5 => '5' | 6 => '6' | 7 => '7' | 8 => '8' | 9 => '9'
  | 10 => 'a' | 11 => 'b' | 12 => 'c' | 13 => 'd' | 14 => 'e' | _ => 'f'

/-- Decimal digits of `n`, most significant first; fuel-structured so that it
kernel-reduces. Used with fuel `n + 1`, which is always sufficient. -/
def natCharsAux : Nat → Nat → List Char
  | 0, _ => []
  | fuel + 1, n =>
    if n < 10 then [digitChar n]
    else natCharsAux fuel (n / 10) ++ [digitChar (n % 10)]

/-- The decimal string of `n`, i.e. Python `'%s' % n` for a nonnegative int. -/
def natChars (n : Nat) : List Char := natCharsAux (n + 1) n

/-- The decimal string of `n` as a `String`. -/
def natStr (n : Nat) : String := ⟨natChars n⟩

theorem natCharsAux_fuel (n : Nat) : ∀ fuel₁ fuel₂ : Nat, n < fuel₁ → n < fuel₂ →
    natCharsAux fuel₁ n = natCharsAux fuel₂ n := by
  induction n using Nat.strong_induction_on with
  | _ n ih =>
    intro fuel₁ fuel₂ h₁ h₂
    match fuel₁, fuel₂ with
    | f₁ + 1, f₂ + 1 =>
      simp only [natCharsAux]
      by_cases h : n < 10
      · simp [h]
      · simp only [if_neg h]
        have hd : n / 10 < n := Nat.div_lt_self (by omega) (by omega)
        rw [ih (n / 10) hd f₁ f₂ (by omega) (by omega)]

theorem natCharsAux_eq_natChars {fuel n : Nat} (h : n < fuel) :
    natCharsAux fuel n = natChars n :=
  natCharsAux_fuel n fuel (n + 1) h (Nat.lt_succ_self n)

theorem mem_natCharsAux {fuel n : Nat} {c : Char} (hc : c ∈ natCharsAux fuel n) :
    ∃ d, d < 10 ∧ c = digitChar d := by
  induction fuel generalizing n with
  | zero => simp [natCharsAux] at hc
  | succ fuel ih =>
    simp only [natCharsAux] at hc
    by_cases h : n < 10
    · simp [h] at hc
      exact ⟨n, h, hc⟩
    · simp [h, List.mem_append] at hc
      rcases hc with hc | hc
      · exact ih hc
      · exact ⟨n % 10, Nat.mod_lt _ (by omega), hc⟩

theorem digitChar_ne_underscore {d : Nat} (hd : d < 10) : digitChar d ≠ '_' := by
  interval_cases d <;> decide

theorem underscore_not_mem_natChars (n : Nat) : '_' ∉ natChars n := by
  intro hmem
  obtain ⟨d, hd, hc⟩ := mem_natCharsAux hmem
  exact digitChar_ne_underscore hd hc.symm

theorem digitChar_toNat {d : Nat} (hd : d < 10) : (digitChar d).toNat = 48 + d := by
  interval_cases d <;> rfl

/-- Reading a digit list back as a number (base 10). -/
def decodeDec (cs : List Char) : Nat :=
  cs.foldl (fun a c => 10 * a + (c.toNat - 48)) 0

theorem decodeDec_natCharsAux {fuel n : Nat} (h : n < fuel) :
    decodeDec (natCharsAux fuel n) = n := by
  induction fuel generalizing n with
  | zero => omega
  | succ fuel ih =>
    simp only [natCharsAux]
    by_cases hn : n < 10
    · simp [hn, decodeDec, digitChar_toNat hn]
    · simp only [if_neg hn]
      have hfoldgen : ∀ (cs : List Char) (a : Nat),
          cs.foldl (fun a c => 10 * a + (c.toNat - 48)) a
            = a * 10 ^ cs.length + cs.foldl (fun a c => 10 * a + (c.toNat - 48)) 0 := by
        intro cs
        induction cs with
        | nil => simp
        | cons c cs ihc =>
          intro a
          simp only [List.foldl_cons, List.length_cons]
          rw [ihc (10 * a + (c.toNat - 48)), ihc (10 * 0 + (c.toNat - 48))]
          ring
      have hrec : n / 10 < fuel := by omega
      simp only [decodeDec, List.foldl_append, List.foldl_cons, List.foldl_nil]
      have := ih hrec
      simp only [decodeDec] at this
      rw [this, digitChar_toNat (Nat.mod_lt _ (by omega))]
      omega

theorem natChars_injective : Function.Injective natChars := by
  intro a b hab
  have ha := decodeDec_natCharsAux (Nat.lt_succ_self a)
  have hb := decodeDec_natCharsAux (Nat.lt_succ_self b)
  simp only [natChars] at hab
  rw [hab] at ha
  rw [hb] at ha
  exact ha.symm

/-- `k` hexadecimal digits of `n % 16 ^ k`, most significant first (the digits
of `n` itself, with leading zeros, whenever `n < 16 ^ k`). -/
def hexW : Nat → Nat → List Char
  | 0, _ => []
  | k + 1, n => hexDigitChar (n / 16 ^ k) :: hexW k (n % 16 ^ k)

/-- Number of hexadecimal digits of `n` (fuel-structured; fuel `n` suffices). -/
def hexLenAux : Nat → Nat → Nat
  | 0, _ => 1
  | fuel + 1, n => if n < 16 then 1 else hexLenAux fuel (n / 16) + 1

/-- Number of hexadecimal digits of `n`. -/
def hexLen (n : Nat) : Nat := hexLenAux n n

/-- Python `'%09x' % n`: the lowercase hexadecimal digits of `n`, left padded
with zeros to at least nine characters. Both graph scripts use this as the
categorical x-axis key. -/
def hex9 (n : Nat) : String := ⟨hexW (max 9 (hexLen n)) n⟩

theorem hexLenAux_le {fuel n k : Nat} (hfuel : n ≤ fuel) (hk : 1 ≤ k)
    (hn : n < 16 ^ k) : hexLenAux fuel n ≤ k := by
  induction fuel generalizing n k with
  | zero => simpa [hexLenAux] using hk
  | succ fuel ih =>
    simp only [hexLenAux]
    by_cases h : n < 16
    · simpa [h] using hk
    · simp only [if_neg h]
      have hk2 : 2 ≤ k := by
        by_contra hc
        interval_cases k
        omega
      have hdiv : n / 16 < 16 ^ (k - 1) := by
        have h16 : (0:Nat) < 16 := by omega
        rw [Nat.div_lt_iff_lt_mul h16]
        have : 16 ^ (k - 1) * 16 = 16 ^ k := by
          rw [← pow_succ]
          congr 1
          omega
        omega
      have := @ih (n / 16) (k - 1) (by omega) (by omega) hdiv
      omega

theorem hexLen_le {n k : Nat} (hk : 1 ≤ k) (hn : n < 16 ^ k) : hexLen n ≤ k :=
  hexLenAux_le (Nat.le_refl n) hk hn

theorem hex9_eq_hexW {n : Nat} (hn : n < 16 ^ 9) : hex9 n = ⟨hexW 9 n⟩ := by
  have h := hexLen_le (by omega) hn
  simp only [hex9]
  congr 1
  congr 1
  omega

theorem hexDigitChar_lt_iff (d e : Fin 16) :
    (hexDigitChar d < hexDigitChar e ↔ (d : Nat) < (e : Nat)) := by
  revert d e
  decide

theorem hexDigitChar_lt_iff' {d e : Nat} (hd : d < 16) (he : e < 16) :
    (hexDigitChar d < hexDigitChar e ↔ d < e) :=
  hexDigitChar_lt_iff ⟨d, hd⟩ ⟨e, he⟩

theorem hexDigitChar_inj {d e : Nat} (hd : d < 16) (he : e < 16)
    (h : ¬ hexDigitChar d < hexDigitChar e) (h' : ¬ hexDigitChar e < hexDigitChar d) :
    d = e := by
  rw [hexDigitChar_lt_iff' hd he] at h
  rw [hexDigitChar_lt_iff' he hd] at h'
  omega

/-- Splitting a number into its top digit and remainder respects order. -/
theorem digit_split_lt {E d₁ r₁ d₂ r₂ : Nat} (_hE : 0 < E) (h₁ : r₁ < E) (h₂ : r₂ < E) :
    (E * d₁ + r₁ < E * d₂ + r₂ ↔ d₁ < d₂ ∨ (d₁ = d₂ ∧ r₁ < r₂)) := by
  constructor
  · intro h
    rcases Nat.lt_trichotomy d₁ d₂ with hd | hd | hd
    · exact Or.inl hd
    · exact Or.inr ⟨hd, by subst hd; omega⟩
    · exfalso
      have hmul : E * (d₂ + 1) ≤ E * d₁ := Nat.mul_le_mul_left E (by omega)
      have hmul2 : E * d₂ + E ≤ E * d₁ := by
        calc E * d₂ + E = E * (d₂ + 1) := by ring
        _ ≤ E * d₁ := hmul
      omega
  · intro h
    rcases h with hd | ⟨hd, hr⟩
    · have hmul : E * (d₁ + 1) ≤ E * d₂ := Nat.mul_le_mul_left E (by omega)
      have hmul2 : E * d₁ + E ≤ E * d₂ := by
        calc E * d₁ + E = E * (d₁ + 1) := by ring
        _ ≤ E * d₂ := hmul
      omega
    · subst hd
      omega

theorem not_list_lt_nil {c : List Char} : ¬ List.lt c [] := by
  intro h
  cases h

/-- Fixed-width hexadecimal rendering is order preserving: for `n, m < 16 ^ k`,
the `k`-digit strings compare lexicographically exactly as the numbers do. -/
theorem hexW_lt_iff : ∀ (k n m : Nat), n < 16 ^ k → m < 16 ^ k →
    (List.lt (hexW k n) (hexW k m) ↔ n < m) := by
  intro k
  induction k with
  | zero =>
    intro n m hn hm
    simp only [pow_zero, Nat.lt_one_iff] at hn hm
    subst hn; subst hm
    simp only [hexW]
    exact ⟨fun h => absurd h not_list_lt_nil, fun h => absurd h (by omega)⟩
  | succ k ih =>
    intro n m hn hm
    have hE : (0:Nat) < 16 ^ k := Nat.pos_pow_of_pos k (by omega)
    have hdn : n / 16 ^ k < 16 := by
      rw [Nat.div_lt_iff_lt_mul hE]
      calc n < 16 ^ (k + 1) := hn
      _ = 16 * 16 ^ k := by ring
    have hdm : m / 16 ^ k < 16 := by
      rw [Nat.div_lt_iff_lt_mul hE]
      calc m < 16 ^ (k + 1) := hm
      _ = 16 * 16 ^ k := by ring
    have hrn : n % 16 ^ k < 16 ^ k := Nat.mod_lt _ hE
    have hrm : m % 16 ^ k < 16 ^ k := Nat.mod_lt _ hE
    have hsplit : (n < m ↔ n / 16 ^ k < m / 16 ^ k ∨
        (n / 16 ^ k = m / 16 ^ k ∧ n % 16 ^ k < m % 16 ^ k)) := by
      conv_lhs => rw [← Nat.div_add_mod n (16 ^ k), ← Nat.div_add_mod m (16 ^ k)]
      exact digit_split_lt hE hrn hrm
    simp only [hexW]
    constructor
    · intro h
      cases h with
      | head _ _ hc =>
        rw [hexDigitChar_lt_iff' hdn hdm] at hc
        exact hsplit.mpr (Or.inl hc)
      | tail hc hc' htl =>
        have hd := hexDigitChar_inj hdn hdm hc hc'
        exact hsplit.mpr (Or.inr ⟨hd, (ih _ _ hrn hrm).mp htl⟩)
    · intro h
      rcases hsplit.mp h with hd | ⟨hd, hr⟩
      · exact List.lt.head _ _ ((hexDigitChar_lt_iff' hdn hdm).mpr hd)
      · rw [hd]
        exact List.lt.tail (lt_irrefl _) (lt_irrefl _) ((ih _ _ hrn hrm).mpr hr)

theorem hex9_lt_iff {v₁ v₂ : Nat} (h₁ : v₁ < 16 ^ 9) (h₂ : v₂ < 16 ^ 9) :
    hex9 v₁ < hex9 v₂ ↔ v₁ < v₂ := by
  rw [hex9_eq_hexW h₁, hex9_eq_hexW h₂, String.lt_iff_toList_lt]
  show List.Lex (· < ·) (hexW 9 v₁) (hexW 9 v₂) ↔ v₁ < v₂
  rw [← List.lt_iff_lex_lt]
  exact hexW_lt_iff 9 v₁ v₂ h₁ h₂

/-- The `SI2` table of binary prefixes shared by all three graph scripts:
pairs of (scale, prefix) for powers of 1024 (values as Python evaluates
`1024**k`). -/
def SI2 : List (Nat × String) :=
  [(1, ""),
   (1024, "Ki"),
   (1048576, "Mi"),
   (1073741824, "Gi"),
   (1099511627776, "Ti"),
   (1125899906842624, "Pi"),
   (1152921504606846976, "Ei"),
   (1180591620717411303424, "Zi"),
   (1208925819614629174706176, "Yi")]

/-- The scale-selection loop of `size_si` and `throughput_si`:
`for scale, si in reversed(SI2): if x >= scale or scale == 1: return ...`.
The scripts always call it on a list ending in scale 1, so the `[]` case is
unreachable; it is given the same value as that final entry. -/
def siLoop (x : Nat) : List (Nat × String) → Nat × String
  | [] => (1, "")
  | (scale, si) :: rest =>
    if scale ≤ x ∨ scale = 1 then (scale, si) else siLoop x rest

/-- Round-half-to-even of `1000 * x / scale` as exact arithmetic: the integer
of thousandths printed by Python `'%.3f' % (x / scale)` (exact for the values
the spec pins down; Python rounds the IEEE double the same way there). -/
def milli (x scale : Nat) : Nat :=
  let q := 1000 * x / scale
  let r := 1000 * x % scale
  if 2 * r < scale then q
  else if scale < 2 * r then q + 1
  else if q % 2 = 0 then q else q + 1

/-- Zero-padding of a fractional part to three digits. -/
def pad3 (m : Nat) : List Char :=
  List.replicate (3 - (natChars m).length) '0' ++ natChars m

/-- The character string `'%.3f' % (x / scale)`. -/
def fmtF3 (x scale : Nat) : List Char :=
  natChars (milli x scale / 1000) ++ '.' :: pad3 (milli x scale % 1000)

/-- `re.sub(r'\.0*$', '', s)`: drop a trailing dot followed only by zeros. -/
def stripDotZeros (cs : List Char) : List Char :=
  match (cs.reverse.dropWhile (fun c => c == '0')) with
  | '.' :: rest => rest.reverse
  | _ => cs

/-- `size_si` from graph.py (and its copies in the other two graph scripts):
pick the largest binary prefix whose scale does not exceed `x` (falling back
to scale 1), print `x / scale` to three decimals, keep the first three
characters, strip a trailing `.0*`, and append the prefixed unit. -/
def size_si (x : Nat) : String :=
  let pick := siLoop x SI2.reverse
  ⟨stripDotZeros ((fmtF3 x pick.1).take 3) ++ ' ' :: pick.2.data ++ ['B']⟩

/-- The result aggregation step shared by bench.py lines 93-103 and
bench-block-sizes.py lines 116-126: read every per-job record (in an
arbitrary glob order given by the input list) and write them out sorted by
the `size` field (`sorted(results, key=lambda x: x["size"])`, a stable
sort). -/
def aggregateResults (files : List ResultRecord) : List ResultRecord :=
  files.mergeSort (fun a b => Nat.ble a.size b.size)

/-- The job identity string `"bench_%s_%s_%s_%s" % (mode, size, block_size, run)`
used as the makefile target name by both benchmark drivers. -/
def target (mode : String) (size block_size run : Nat) : String :=
  "bench_" ++ mode ++ "_" ++ natStr size ++ "_" ++ natStr block_size ++ "_" ++ natStr run

/-- The nested sweep loops of bench.py lines 71-85 (where the block-size list
is the singleton `[BLOCK_SIZE]`) and bench-block-sizes.py lines 93-108 (where
the size list is the singleton `[SIZE]`): one emitted job (identified by its
target string) per (mode, size, block_size, run) combination. -/
def benchTargets (modes : List String) (sizes block_sizes : List Nat) (runs : Nat) :
    List String :=
  modes.flatMap fun mode =>
    sizes.flatMap fun size =>
      block_sizes.flatMap fun block_size =>
        (List.range runs).map fun run => target mode size block_size run

/-- Splitting a character list at an underscore is unambiguous when the part
before the underscore contains no underscore. -/
theorem split_at_underscore :
    ∀ (a₁ a₂ t₁ t₂ : List Char), '_' ∉ a₁ → '_' ∉ a₂ →
      a₁ ++ '_' :: t₁ = a₂ ++ '_' :: t₂ → a₁ = a₂ ∧ t₁ = t₂ := by
  intro a₁
  induction a₁ with
  | nil =>
    intro a₂ t₁ t₂ _ h₂ heq
    cases a₂ with
    | nil => simpa using heq
    | cons c cs =>
      exfalso
      simp only [List.nil_append, List.cons_append, List.cons.injEq] at heq
      exact h₂ (heq.1 ▸ List.mem_cons_self c cs)
  | cons c cs ih =>
    intro a₂ t₁ t₂ h₁ h₂ heq
    cases a₂ with
    | nil =>
      exfalso
      simp only [List.nil_append, List.cons_append, List.cons.injEq] at heq
      exact h₁ (heq.1 ▸ List.mem_cons_self c cs)
    | cons d ds =>
      simp only [List.cons_append, List.cons.injEq] at heq
      obtain ⟨hcd, htail⟩ := heq
      have h₁' : '_' ∉ cs := fun h => h₁ (List.mem_cons_of_mem c h)
      have h₂' : '_' ∉ ds := fun h => h₂ (List.mem_cons_of_mem d h)
      obtain ⟨ha, ht⟩ := ih ds t₁ t₂ h₁' h₂' htail
      exact ⟨by rw [hcd, ha], ht⟩

theorem underscore_not_mem_natChars_reverse (n : Nat) : '_' ∉ (natChars n).reverse := by
  rw [List.mem_reverse]
  exact underscore_not_mem_natChars n

theorem target_injective :
    Function.Injective fun q : String × Nat × Nat × Nat => target q.1 q.2.1 q.2.2.1 q.2.2.2 := by
  rintro ⟨m₁, s₁, b₁, r₁⟩ ⟨m₂, s₂, b₂, r₂⟩ h
  simp only at h
  have hdata : (target m₁ s₁ b₁ r₁).data = (target m₂ s₂ b₂ r₂).data := by rw [h]
  simp only [target, String.data_append] at hdata
  have hrev := congrArg List.reverse hdata
  simp only [List.reverse_append, List.reverse_cons, natStr, List.reverse_nil,
    List.nil_append, List.singleton_append, List.append_assoc] at hrev
  obtain ⟨hr, hrev⟩ := split_at_underscore _ _ _ _
    (underscore_not_mem_natChars_reverse r₁) (underscore_not_mem_natChars_reverse r₂) hrev
  simp only [List.append_eq, List.append_assoc, List.singleton_append, List.cons_append,
    List.append_nil, List.nil_append] at hrev
  obtain ⟨hb, hrev⟩ := split_at_underscore _ _ _ _
    (underscore_not_mem_natChars_reverse b₁) (underscore_not_mem_natChars_reverse b₂) hrev
  obtain ⟨hs, hrev⟩ := split_at_underscore _ _ _ _
    (underscore_not_mem_natChars_reverse s₁) (underscore_not_mem_natChars_reverse s₂) hrev
  have hm : m₁ = m₂ := by
    have hcancel := List.append_cancel_right hrev
    have hdm : m₁.data = m₂.data := by
      simpa using congrArg List.reverse hcancel
    exact String.ext hdm
  have hs' : s₁ = s₂ := natChars_injective (by
    have := congrArg List.reverse hs
    simpa using this)
  have hb' : b₁ = b₂ := natChars_injective (by
    have := congrArg List.reverse hb
    simpa using this)
  have hr' : r₁ = r₂ := natChars_injective (by
    have := congrArg List.reverse hr
    simpa using this)
  simp [hm, hs', hb', hr']

theorem product_map_eq {α β γ : Type} (l₁ : List α) (l₂ : List β) (g : α × β → γ) :
    (l₁ ×ˢ l₂).map g = l₁.flatMap fun a => l₂.map fun b => g (a, b) := by
  simp [SProd.sprod, List.product, List.map_flatMap, List.map_map, Function.comp_def]

theorem benchTargets_eq_product_map (modes : List String) (sizes block_sizes : List Nat)
    (runs : Nat) :
    benchTargets modes sizes block_sizes runs
      = ((modes ×ˢ (sizes ×ˢ (block_sizes ×ˢ List.range runs))).map
          fun q => target q.1 q.2.1 q.2.2.1 q.2.2.2) := by
  simp [benchTargets, SProd.sprod, List.product, List.map_flatMap, List.map_map,
    Function.comp_def]

/-- The nine access modes swept by bench.py. -/
def MODES : List String :=
  ["write_inorder", "update_inorder", "read_inorder",
   "write_reversed", "update_reversed", "read_reversed",
   "write_random", "update_random", "read_random"]

/-- `SIZES = [2**x for x in range(10, 33+1, 3)]` from bench.py. -/
def SIZES : List Nat :=
  [1024, 8192, 65536, 524288, 4194304, 33554432, 268435456, 2147483648]

/-- `BLOCK_SIZE = 512` from bench.py. -/
def BLOCK_SIZE : Nat := 512

/-- `RUNS = 5`, the repetition count of both drivers. -/
def RUNS : Nat := 5

/-- The eighteen access modes swept by bench-block-sizes.py (the unbuffered
nine plus their `buffered_` variants; the `incremental_` block is commented
out in the source). -/
def MODES_BLOCKS : List String :=
  ["write_inorder", "update_inorder", "read_inorder",
   "write_reversed", "update_reversed", "read_reversed",
   "write_random", "update_random", "read_random",
   "buffered_write_inorder", "buffered_update_inorder", "buffered_read_inorder",
   "buffered_write_reversed", "buffered_update_reversed", "buffered_read_reversed",
   "buffered_write_random", "buffered_update_random", "buffered_read_random"]

/-- `SIZE = 2**26` from bench-block-sizes.py. -/
def SIZE : Nat := 67108864

/-- `BLOCK_SIZES = [2**x for x in range(2, 26+1, 2)]` from bench-block-sizes.py. -/
def BLOCK_SIZES : List Nat :=
  [4, 16, 64, 256, 1024, 4096, 16384, 65536, 262144, 1048576, 4194304, 16777216, 67108864]

/-- The externally observable effects of one run of a benchmark driver's
`main`. -/
structure BenchEffects where
  printed : List String
  makefile : Option (List String)
  jobsRun : Bool
  resultsWritten : Option (List ResultRecord)
  exitCode : Nat
deriving DecidableEq

/-- `main` of bench.py: validate the engine name first (printing
`unknown engine %s?` and returning 1 on failure, before any other work);
otherwise emit the makefile of jobs, run them through `make` (external,
modelled as succeeding), aggregate the per-job records found in
`target/results/*.json` (given here as the input list, in glob order) into
the results file, and fall off the end (`sys.exit(None)`, i.e. exit 0).
The makefile is abstracted to its list of targets; the rule bodies are an
invocation template for the external engine. -/
def benchMain (engine : String) (resultFiles : List ResultRecord) (results_path : String) :
    BenchEffects :=
  if engine = "vc-fee" ∨ engine = "wasmtime" then
    { printed := ["aggregating into " ++ results_path ++ "...", "done!"],
      makefile := some (benchTargets MODES SIZES [BLOCK_SIZE] RUNS),
      jobsRun := true,
      resultsWritten := some (aggregateResults resultFiles),
      exitCode := 0 }
  else
    { printed := ["unknown engine " ++ engine ++ "?"],
      makefile := none,
      jobsRun := false,
      resultsWritten := none,
      exitCode := 1 }

/-- `float(r['size']) / float(r['runtime'])`, the throughput of one record
(defined for nonzero runtime; the scripts' comprehensions raise on zero). -/
def throughput (r : ResultRecord) : ℚ := (r.size : ℚ) / r.runtime

/-- The `sizes` comprehension of graph-block-sizes.py lines 106-108:
x-axis key strings `'%09x' % r['block_size']` of the records matching a
name. -/
def sizesFor (results : List ResultRecord) (nm : String) : List String :=
  (results.filter fun r => r.name == nm).map fun r => hex9 r.block_size

/-- The `throughputs` comprehension of graph-block-sizes.py lines 109-111
(and graph.py lines 91-93): `float(r['size']) / float(r['runtime'])` over the
records matching a name. It raises `ZeroDivisionError` — modelled as `none` —
as soon as a matching record has runtime 0. -/
def throughputsFor (results : List ResultRecord) (nm : String) : Option (List ℚ) :=
  if (results.filter fun r => r.name == nm).any (fun r => r.runtime == 0) then none
  else some ((results.filter fun r => r.name == nm).map throughput)

/-- The first-occurrence deduplication loop building `unique_sizes`:
`for s in sizes: if s not in unique_sizes: unique_sizes.append(s)`. -/
def pyUnique (l : List String) : List String :=
  l.foldl (fun acc s => if s ∈ acc then acc else acc ++ [s]) []

/-- `[t for s_t, t in zip(sizes, throughputs) if s_t == s]`: the throughput
samples of one x-axis key. -/
def selectTs (pairs : List (String × ℚ)) (s : String) : List ℚ :=
  (pairs.filter fun p => p.1 == s).map Prod.snd

/-- One trend line drawn by graph-block-sizes.py for one (engine, key):
its scatter samples, deduplicated x keys, per-key min/max/mean, and the
chosen style (`'-' if buffered else ':'`) and label suffix
(`'' if buffered else ' (no bufrw)'`, recorded as `nobufrw`). -/
structure PlotLine where
  key : String
  samples : List (String × ℚ)
  unique_sizes : List String
  mins : List (Option ℚ)
  maxs : List (Option ℚ)
  avgs : List ℚ
  solid : Bool
  nobufrw : Bool
deriving DecidableEq

/-- The name `'%s%s%s_%s' % (type_prefix, 'buffered_' if buffered else '', mode, order)`
looked up by graph-block-sizes.py line 105. -/
def variantName (tp : String) (buffered : Bool) (mode ord : String) : String :=
  tp ++ (if buffered then "buffered_" else "") ++ mode ++ "_" ++ ord

/-- One iteration of the `for buffered in [True, False]` loop of
graph-block-sizes.py lines 104-149, for one engine's (already loaded) result
set and one key. Returns the updated `was_buffered` flag together with the
line plotted (if any); `none` models the `ZeroDivisionError` raised by the
`throughputs` comprehension on a zero-runtime record. The
`elif not was_buffered: buffered = True` override is the `b` binding. -/
def plotVariant (results : List ResultRecord) (tp mode ord : String)
    (buffered was_buffered : Bool) : Option (Bool × Option PlotLine) :=
  let nm := variantName tp buffered mode ord
  let sizes := sizesFor results nm
  match throughputsFor results nm with
  | none => none
  | some ts =>
    if sizes.length = 0 then some (false, none)
    else
      let b := if was_buffered then buffered else true
      let us := pyUnique sizes
      let groups := us.map fun s => selectTs (sizes.zip ts) s
      some (was_buffered,
        some { key := nm
               samples := sizes.zip ts
               unique_sizes := us
               mins := groups.map List.min?
               maxs := groups.map List.max?
               avgs := groups.map fun g => g.sum / (g.length : ℚ)
               solid := b
               nobufrw := !b })

/-- The whole buffered/unbuffered loop for one engine and one
(type, mode, order) cell of graph-block-sizes.py: first the buffered pass
(with `was_buffered` initially True), then the unbuffered pass with the
updated flag; the lines plotted, or `none` if either pass raised. -/
def renderCell (results : List ResultRecord) (tp mode ord : String) :
    Option (List PlotLine) :=
  match plotVariant results tp mode ord true true with
  | none => none
  | some (wb, p₁) =>
    match plotVariant results tp mode ord false wb with
    | none => none
    | some (_, p₂) => some (p₁.toList ++ p₂.toList)

/-- The per-key throughput sample group of the aggregation step
(graph-block-sizes.py lines 126-133, graph.py lines 102-109, with the
block-size key): all throughputs of records matching name `nm` whose
`'%09x'` key equals `s`. -/
def keyGroup (results : List ResultRecord) (nm s : String) : List ℚ :=
  selectTs ((sizesFor results nm).zip
    ((results.filter fun r => r.name == nm).map throughput)) s

/-- `BASELINE = 1` from graph-relative-summary.py line 16. -/
def BASELINE : Nat := 1

/-- `sorted(results, key=lambda x: x["block_size"])` applied by the two
block-size graph scripts when loading each result file. -/
def sortByBlockSize (rs : List ResultRecord) : List ResultRecord :=
  rs.mergeSort (fun a b => Nat.ble a.block_size b.block_size)

/-- The `result_map` built by graph-relative-summary.py lines 79-87 from the
already parsed `label=path` arguments: each result set sorted by block
size. -/
def result_map (args : List (String × List ResultRecord)) :
    List (String × List ResultRecord) :=
  args.map fun nr => (nr.1, sortByBlockSize nr.2)

/-- `baseline_results` of graph-relative-summary.py lines 80-90: `None`
initially, set to the loaded results whose enumeration index `i` equals
`BASELINE`. -/
def baseline_results (args : List (String × List ResultRecord)) :
    Option (List ResultRecord) :=
  Option.map Prod.snd (result_map args)[BASELINE]?

/-- `[(t-bt)/bt for t, bt in zip(throughputs, baseline_throughputs)]` from
graph-relative-summary.py lines 133-134. -/
def relative_throughputs (ts bs : List ℚ) : List ℚ :=
  (ts.zip bs).map fun p => (p.1 - p.2) / p.2

/-!
## Theorems about the embedded pipeline
-/

/-- C9: for every engine name other than "vc-fee" and "wasmtime", `main` of
bench.py prints the error, exits nonzero (it returns 1, which `sys.exit`
propagates), and performs no partial work: no makefile is written, no jobs
are run, and no results file is produced. -/
theorem unknown_engine_rejected (engine : String) (files : List ResultRecord)
    (path : String) (h₁ : engine ≠ "vc-fee") (h₂ : engine ≠ "wasmtime") :
    (benchMain engine files path).exitCode ≠ 0 ∧
    (benchMain engine files path).makefile = none ∧
    (benchMain engine files path).jobsRun = false ∧
    (benchMain engine files path).resultsWritten = none ∧
    (benchMain engine files path).printed = ["unknown engine " ++ engine ++ "?"] := by
  simp [benchMain, h₁, h₂]

/-- Witness for `unknown_engine_rejected` at the concrete engine name
"foo". -/
theorem unknown_engine_rejected_witness :
    (benchMain "foo" [] "target/results.json").exitCode ≠ 0 ∧
    (benchMain "foo" [] "target/results.json").makefile = none ∧
    (benchMain "foo" [] "target/results.json").jobsRun = false ∧
    (benchMain "foo" [] "target/results.json").resultsWritten = none ∧
    (benchMain "foo" [] "target/results.json").printed = ["unknown engine " ++ "foo" ++ "?"] :=
  unknown_engine_rejected "foo" [] "target/results.json" (by decide) (by decide)

/-- C4 (counterexample): the claim says the FIRST result set on the command
line is the baseline. With two concrete sets, `baseline_results` is the
second one, which differs from the first. -/
theorem baseline_counterexample :
    baseline_results [("first", [⟨"a_rec", 1024, 4, 1⟩]), ("second", [⟨"b_rec", 2048, 8, 1⟩])]
      = some [⟨"b_rec", 2048, 8, 1⟩] ∧
    ([(⟨"b_rec", 2048, 8, 1⟩ : ResultRecord)] : List ResultRecord)
      ≠ [⟨"a_rec", 1024, 4, 1⟩] := by
  constructor
  · have hs : sortByBlockSize [⟨"b_rec", 2048, 8, 1⟩] = [⟨"b_rec", 2048, 8, 1⟩] :=
      List.mergeSort_of_sorted (by simp)
    simp [baseline_results, result_map, BASELINE, hs]
  · decide

/-- C4 (amended): `BASELINE = 1`, so the result set supplied SECOND on the
command line is the designated baseline series (the first entry is only used
for the panel title). -/
theorem baseline_is_second (a₀ a₁ : String × List ResultRecord)
    (rest : List (String × List ResultRecord)) :
    baseline_results (a₀ :: a₁ :: rest) = some (sortByBlockSize a₁.2) := by
  simp [baseline_results, result_map, BASELINE]

/-- C7: each element of `relative_throughputs` is `(t - b) / b` for the pair
`(t, b)` zipped at the same position, and it is exactly 0 when `t = b`. -/
theorem relative_value_spec (ts bs : List ℚ) (i : Nat) (t b : ℚ)
    (hp : (ts.zip bs)[i]? = some (t, b)) (hb : 0 < b) :
    (relative_throughputs ts bs)[i]? = some ((t - b) / b) ∧
    (t = b → (relative_throughputs ts bs)[i]? = some 0) := by
  have hmap : (relative_throughputs ts bs)[i]?
      = Option.map (fun p : ℚ × ℚ => (p.1 - p.2) / p.2) (ts.zip bs)[i]? :=
    List.getElem?_map _ _ _
  rw [hmap, hp]
  refine ⟨rfl, ?_⟩
  intro ht
  subst ht
  simp

/-- Witness for `relative_value_spec` at `t = b = 3`. -/
theorem relative_value_spec_witness :
    (([(3:ℚ)].zip [(3:ℚ)])[0]? = some (3, 3) ∧ (0:ℚ) < 3) ∧
    ((relative_throughputs [3] [3])[0]? = some ((3 - 3) / 3) ∧
      ((3:ℚ) = 3 → (relative_throughputs [3] [3])[0]? = some 0)) :=
  ⟨⟨rfl, by norm_num⟩, relative_value_spec [3] [3] 0 3 3 rfl (by norm_num)⟩

/-- C1 (counterexample): both drivers sort the aggregated output by the
`size` field. In the block-size sweep all records share the same size
(`SIZE = 2**26`), so the stable sort preserves the glob read order: reading
the block-size-8 record before the block-size-4 record leaves the output
unsorted in the independent variable `block_size`. -/
theorem blocksize_sort_counterexample :
    aggregateResults [⟨"write_inorder", 67108864, 8, 1⟩, ⟨"write_inorder", 67108864, 4, 1⟩]
      = [⟨"write_inorder", 67108864, 8, 1⟩, ⟨"write_inorder", 67108864, 4, 1⟩] ∧
    ¬ List.Pairwise (fun a b : ResultRecord => a.block_size ≤ b.block_size)
        [⟨"write_inorder", 67108864, 8, 1⟩, ⟨"write_inorder", 67108864, 4, 1⟩] := by
  constructor
  · exact List.mergeSort_of_sorted (by decide)
  · decide

/-- C1 (amended): the aggregated output file of either driver is the input
records sorted ascending by the `size` field, regardless of the order the
per-job files were read; for the size sweep (bench.py) `size` is the
independent variable, while the block-size sweep driver also sorts by the
constant `size` field, not by `block_size`. -/
theorem aggregate_sorted_by_size (files : List ResultRecord) :
    (aggregateResults files).Pairwise (fun a b => a.size ≤ b.size) ∧
    (aggregateResults files).Perm files := by
  constructor
  · have h := @List.sorted_mergeSort ResultRecord
      (fun a b : ResultRecord => Nat.ble a.size b.size)
      (fun a b c hab hbc => by simp only [Nat.ble_eq] at *; omega)
      (fun a b => by simp only [Bool.or_eq_true, Nat.ble_eq]; omega) files
    exact h.imp (fun hab => by simpa [Nat.ble_eq] using hab)
  · exact List.mergeSort_perm files _

/-- Evaluation of the scale-selection loop over the reversed `SI2` table:
the first (largest) scale not exceeding `x`, with scale 1 as fallback. -/
theorem siLoop_eval (x : Nat) : siLoop x SI2.reverse =
    if 1208925819614629174706176 ≤ x then (1208925819614629174706176, "Yi")
    else if 1180591620717411303424 ≤ x then (1180591620717411303424, "Zi")
    else if 1152921504606846976 ≤ x then (1152921504606846976, "Ei")
    else if 1125899906842624 ≤ x then (1125899906842624, "Pi")
    else if 1099511627776 ≤ x then (1099511627776, "Ti")
    else if 1073741824 ≤ x then (1073741824, "Gi")
    else if 1048576 ≤ x then (1048576, "Mi")
    else if 1024 ≤ x then (1024, "Ki")
    else (1, "") := by
  have hrev : SI2.reverse
      = [(1208925819614629174706176, "Yi"), (1180591620717411303424, "Zi"),
         (1152921504606846976, "Ei"), (1125899906842624, "Pi"), (1099511627776, "Ti"),
         (1073741824, "Gi"), (1048576, "Mi"), (1024, "Ki"), (1, "")] := by rfl
  rw [hrev]
  simp only [siLoop]
  norm_num

/-- C6: the three formatting facts pinned by the spec, plus the
prefix-selection rule of the `size_si` loop: below 1024 no prefix is
selected (scale 1, empty prefix string), the selected scale never exceeds
the value (for positive values), and the selected scale is at least every
power of 1024 not exceeding the value, i.e. it is the largest such power. -/
theorem size_si_spec :
    size_si 1024 = "1 KiB" ∧ size_si 0 = "0 B" ∧ size_si 1536 = "1.5 KiB" ∧
    (∀ x : Nat, x < 1024 → siLoop x SI2.reverse = (1, "")) ∧
    (∀ x : Nat, 1 ≤ x → (siLoop x SI2.reverse).1 ≤ x) ∧
    (∀ x k : Nat, k ≤ 8 → 1024 ^ k ≤ x → 1024 ^ k ≤ (siLoop x SI2.reverse).1) := by
  refine ⟨by decide, by decide, by decide, ?_, ?_, ?_⟩
  · intro x hx
    rw [siLoop_eval]
    split_ifs <;> first | rfl | (exfalso; omega)
  · intro x hx
    rw [siLoop_eval]
    split_ifs <;> omega
  · intro x k hk hle
    rw [siLoop_eval]
    have hpow : 1024 ^ k ≤ 1208925819614629174706176 := by
      calc 1024 ^ k ≤ 1024 ^ 8 := Nat.pow_le_pow_right (by omega) hk
      _ = 1208925819614629174706176 := by norm_num
    split_ifs <;> interval_cases k <;> norm_num at hle hpow ⊢ <;> omega

/-- Witness for `size_si_spec`: the prefix-selection clauses applied at
concrete values. -/
theorem size_si_spec_witness :
    (512 < 1024 ∧ siLoop 512 SI2.reverse = (1, "")) ∧
    (1 ≤ 2048 ∧ (siLoop 2048 SI2.reverse).1 ≤ 2048) :=
  ⟨⟨by norm_num, size_si_spec.2.2.2.1 512 (by norm_num)⟩,
   ⟨by norm_num, size_si_spec.2.2.2.2.1 2048 (by norm_num)⟩⟩

/-- C5: for every sweep configuration (mode, size and block-size lists
without duplicates, as the reference configurations are), the emitter
produces exactly `|modes| * |sizes| * |block_sizes| * runs` job targets, and
the target identity strings are pairwise distinct (the numeric fields
contain no underscore, so splitting at the last three underscores recovers
the four parameters unambiguously). -/
theorem job_emitter_spec (modes : List String) (sizes block_sizes : List Nat)
    (runs : Nat) (hm : modes.Nodup) (hs : sizes.Nodup) (hb : block_sizes.Nodup) :
    (benchTargets modes sizes block_sizes runs).length
      = modes.length * sizes.length * block_sizes.length * runs ∧
    (benchTargets modes sizes block_sizes runs).Nodup := by
  rw [benchTargets_eq_product_map]
  constructor
  · rw [List.length_map, List.length_product, List.length_product, List.length_product,
      List.length_range]
    ring
  · exact (hm.product (hs.product (hb.product (List.nodup_range runs)))).map
      target_injective

/-- Witness for `job_emitter_spec`: the spec's end-to-end scenario sweep of
2 modes, 1 size, 2 block sizes and 2 repetitions yields 8 pairwise-distinct
jobs. -/
theorem job_emitter_spec_witness :
    ((["write_inorder", "read_inorder"] : List String).Nodup ∧
     ([1024] : List Nat).Nodup ∧ ([64, 128] : List Nat).Nodup) ∧
    ((benchTargets ["write_inorder", "read_inorder"] [1024] [64, 128] 2).length
        = (["write_inorder", "read_inorder"] : List String).length
          * ([1024] : List Nat).length * ([64, 128] : List Nat).length * 2 ∧
     (benchTargets ["write_inorder", "read_inorder"] [1024] [64, 128] 2).Nodup) :=
  ⟨⟨by decide, by decide, by decide⟩,
   job_emitter_spec ["write_inorder", "read_inorder"] [1024] [64, 128] 2
     (by decide) (by decide) (by decide)⟩

/-- C10: for values below `16 ^ 9`, numeric order coincides with
lexicographic order of the `'%09x'` keys; consequently the renderer's x-axis
key list `sizesFor` is in nondecreasing string order whenever the records are
sorted by the numeric block size. -/
theorem hex9_key_order (v₁ v₂ : Nat) (h₁ : v₁ < 16 ^ 9) (h₂ : v₂ < 16 ^ 9) :
    (v₁ < v₂ ↔ hex9 v₁ < hex9 v₂) ∧
    (∀ (results : List ResultRecord) (nm : String),
      (∀ r ∈ results, r.block_size < 16 ^ 9) →
      results.Pairwise (fun a b => a.block_size ≤ b.block_size) →
      (sizesFor results nm).Pairwise (· ≤ ·)) := by
  constructor
  · exact (hex9_lt_iff h₁ h₂).symm
  · intro results nm hbound hsorted
    simp only [sizesFor]
    rw [List.pairwise_map]
    have hf : (results.filter fun r => r.name == nm).Pairwise
        (fun a b => a.block_size ≤ b.block_size) := hsorted.filter _
    refine hf.imp_of_mem ?_
    intro a b ha hb hab
    have hba : a.block_size < 16 ^ 9 := hbound a (List.mem_of_mem_filter ha)
    have hbb : b.block_size < 16 ^ 9 := hbound b (List.mem_of_mem_filter hb)
    rw [← not_lt]
    intro hlt
    have := (hex9_lt_iff hbb hba).mp hlt
    omega

/-- Witness for `hex9_key_order` at 3 and 5. -/
theorem hex9_key_order_witness :
    (3 < 16 ^ 9 ∧ 5 < 16 ^ 9) ∧ ((3:Nat) < 5 ↔ hex9 3 < hex9 5) :=
  ⟨⟨by norm_num, by norm_num⟩, (hex9_key_order 3 5 (by norm_num) (by norm_num)).1⟩

instance : Std.Antisymm (fun a b : ℚ => a ≤ b) :=
  ⟨fun {_ _} h h₂ => le_antisymm h h₂⟩

theorem list_min?_perm {l₁ l₂ : List ℚ} (h : l₁.Perm l₂) : l₁.min? = l₂.min? := by
  have hr : ∀ a : ℚ, a ≤ a := fun a => le_refl a
  have hc : ∀ a b : ℚ, min a b = a ∨ min a b = b := fun a b => min_choice a b
  have hi : ∀ a b c : ℚ, a ≤ min b c ↔ a ≤ b ∧ a ≤ c := fun a b c => le_min_iff
  rcases e₂ : l₂.min? with _ | a
  · rw [List.min?_eq_none_iff] at e₂
    subst e₂
    rw [List.min?_eq_none_iff]
    exact h.eq_nil
  · rw [List.min?_eq_some_iff hr hc hi] at e₂
    rw [List.min?_eq_some_iff hr hc hi]
    exact ⟨h.mem_iff.mpr e₂.1, fun b hb => e₂.2 b (h.mem_iff.mp hb)⟩

theorem list_max?_perm {l₁ l₂ : List ℚ} (h : l₁.Perm l₂) : l₁.max? = l₂.max? := by
  have hr : ∀ a : ℚ, a ≤ a := fun a => le_refl a
  have hc : ∀ a b : ℚ, max a b = a ∨ max a b = b := fun a b => max_choice a b
  have hi : ∀ a b c : ℚ, max b c ≤ a ↔ b ≤ a ∧ c ≤ a := fun a b c => max_le_iff
  rcases e₂ : l₂.max? with _ | a
  · rw [List.max?_eq_none_iff] at e₂
    subst e₂
    rw [List.max?_eq_none_iff]
    exact h.eq_nil
  · rw [List.max?_eq_some_iff hr hc hi] at e₂
    rw [List.max?_eq_some_iff hr hc hi]
    exact ⟨h.mem_iff.mpr e₂.1, fun b hb => e₂.2 b (h.mem_iff.mp hb)⟩

/-- The zip of the parallel `sizes` and `throughputs` comprehensions over the
same filtered record list collapses to one map, so `keyGroup` is a
filter-and-map of the record list itself. -/
theorem keyGroup_eq_filter_map (rs : List ResultRecord) (nm s : String) :
    keyGroup rs nm s = ((rs.filter fun r => r.name == nm).filter
      (fun r => hex9 r.block_size == s)).map throughput := by
  simp only [keyGroup, sizesFor, selectTs]
  rw [List.zip_map', List.filter_map, List.map_map]
  simp [Function.comp_def]

theorem keyGroup_perm {rs₁ rs₂ : List ResultRecord} (h : rs₁.Perm rs₂) (nm s : String) :
    (keyGroup rs₁ nm s).Perm (keyGroup rs₂ nm s) := by
  rw [keyGroup_eq_filter_map, keyGroup_eq_filter_map]
  exact ((h.filter _).filter _).map _

/-- C8: aggregation is order independent — permuting the input records
changes neither the per-key `min` and `max` nor the per-key arithmetic mean
`sum(ts) / len(ts)` of the throughput samples of any key (throughput
arithmetic modelled exactly over `ℚ`). -/
theorem aggregation_perm_invariant (rs₁ rs₂ : List ResultRecord) (h : rs₁.Perm rs₂)
    (nm s : String) :
    (keyGroup rs₁ nm s).min? = (keyGroup rs₂ nm s).min? ∧
    (keyGroup rs₁ nm s).max? = (keyGroup rs₂ nm s).max? ∧
    (keyGroup rs₁ nm s).sum / ((keyGroup rs₁ nm s).length : ℚ)
      = (keyGroup rs₂ nm s).sum / ((keyGroup rs₂ nm s).length : ℚ) := by
  have hp := keyGroup_perm h nm s
  exact ⟨list_min?_perm hp, list_max?_perm hp, by rw [hp.sum_eq, hp.length_eq]⟩

/-- Witness for `aggregation_perm_invariant` on a concrete two-record swap. -/
theorem aggregation_perm_invariant_witness :
    (keyGroup [⟨"n", 100, 4, 1⟩, ⟨"n", 200, 8, 2⟩] "n" "k").min?
        = (keyGroup [⟨"n", 200, 8, 2⟩, ⟨"n", 100, 4, 1⟩] "n" "k").min? ∧
    (keyGroup [⟨"n", 100, 4, 1⟩, ⟨"n", 200, 8, 2⟩] "n" "k").max?
        = (keyGroup [⟨"n", 200, 8, 2⟩, ⟨"n", 100, 4, 1⟩] "n" "k").max? ∧
    (keyGroup [⟨"n", 100, 4, 1⟩, ⟨"n", 200, 8, 2⟩] "n" "k").sum
        / ((keyGroup [⟨"n", 100, 4, 1⟩, ⟨"n", 200, 8, 2⟩] "n" "k").length : ℚ)
      = (keyGroup [⟨"n", 200, 8, 2⟩, ⟨"n", 100, 4, 1⟩] "n" "k").sum
        / ((keyGroup [⟨"n", 200, 8, 2⟩, ⟨"n", 100, 4, 1⟩] "n" "k").length : ℚ) :=
  aggregation_perm_invariant _ _ (List.Perm.swap ⟨"n", 200, 8, 2⟩ ⟨"n", 100, 4, 1⟩ []) "n" "k"

theorem throughputsFor_eq_some (results : List ResultRecord) (nm : String)
    (hz : ∀ r ∈ results, r.name = nm → r.runtime ≠ 0) :
    throughputsFor results nm
      = some ((results.filter fun r => r.name == nm).map throughput) := by
  have hany : (results.filter fun r => r.name == nm).any (fun r => r.runtime == 0)
      = false := by
    rw [List.any_eq_false]
    intro r hr
    rw [List.mem_filter] at hr
    have hname : r.name = nm := by simpa using hr.2
    have := hz r hr.1 hname
    simp [this]
  simp [throughputsFor, hany]

theorem throughputsFor_eq_none (results : List ResultRecord) (nm : String)
    (r : ResultRecord) (hr : r ∈ results) (hname : r.name = nm) (hz : r.runtime = 0) :
    throughputsFor results nm = none := by
  have hany : (results.filter fun r => r.name == nm).any (fun r => r.runtime == 0)
      = true := by
    rw [List.any_eq_true]
    exact ⟨r, List.mem_filter.mpr ⟨hr, by simp [hname]⟩, by simp [hz]⟩
  simp [throughputsFor, hany]

theorem plotVariant_of_throughputsFor_none (results : List ResultRecord)
    (tp mode ord : String) (buffered was_buffered : Bool)
    (hT : throughputsFor results (variantName tp buffered mode ord) = none) :
    plotVariant results tp mode ord buffered was_buffered = none := by
  simp [plotVariant, hT]

theorem plotVariant_empty (results : List ResultRecord) (tp mode ord : String)
    (buffered was_buffered : Bool)
    (hempty : sizesFor results (variantName tp buffered mode ord) = []) :
    plotVariant results tp mode ord buffered was_buffered = some (false, none) := by
  have hfil : (results.filter fun r => r.name == variantName tp buffered mode ord)
      = [] := by
    simpa only [sizesFor, List.map_eq_nil_iff] using hempty
  simp [plotVariant, throughputsFor, hfil, sizesFor]

/-- C2 (amended): when no `buffered_`-named record exists for a key but
unbuffered records do (with the runtime > 0 invariant), the renderer
completes without error and draws exactly one trend line for the key — but
in the SOLID style with the plain engine label: the `elif not was_buffered:
buffered = True` override promotes the unbuffered data to the primary line,
and the dotted style with the `(no bufrw)` suffix is used only when the
buffered variant also exists. -/
theorem missing_buffered_style (results : List ResultRecord) (tp mode ord : String)
    (hB : sizesFor results (variantName tp true mode ord) = [])
    (hU : sizesFor results (variantName tp false mode ord) ≠ [])
    (hz : ∀ r ∈ results, r.name = variantName tp false mode ord → r.runtime ≠ 0) :
    ∃ pl : PlotLine, renderCell results tp mode ord = some [pl] ∧
      pl.solid = true ∧ pl.nobufrw = false ∧
      pl.key = variantName tp false mode ord := by
  have h1 : plotVariant results tp mode ord true true = some (false, none) :=
    plotVariant_empty results tp mode ord true true hB
  have hts := throughputsFor_eq_some results (variantName tp false mode ord) hz
  simp only [renderCell, h1]
  simp only [plotVariant, hts]
  rw [if_neg (by simpa [sizesFor, List.length_eq_zero] using hU)]
  simp only [Bool.false_eq_true, if_false, Option.toList_none, Option.toList_some,
    List.nil_append]
  exact ⟨_, rfl, rfl, rfl, rfl⟩

/-- Witness for `missing_buffered_style` on a one-record result set having
only the unbuffered variant. -/
theorem missing_buffered_style_witness :
    (sizesFor [⟨"read_inorder", 1024, 4, 1⟩] (variantName "" true "read" "inorder") = [] ∧
     sizesFor [⟨"read_inorder", 1024, 4, 1⟩] (variantName "" false "read" "inorder") ≠ []) ∧
    ∃ pl : PlotLine,
      renderCell [⟨"read_inorder", 1024, 4, 1⟩] "" "read" "inorder" = some [pl] ∧
      pl.solid = true ∧ pl.nobufrw = false ∧
      pl.key = variantName "" false "read" "inorder" :=
  ⟨⟨by decide, by decide⟩,
   missing_buffered_style [⟨"read_inorder", 1024, 4, 1⟩] "" "read" "inorder"
     (by decide) (by decide) (by decide)⟩

/-- C2 (counterexample): the claim says the lone unbuffered trend line is
drawn DOTTED. On a concrete result set with only unbuffered records the
renderer draws exactly one line and it is solid, so no dotted line exists. -/
theorem missing_buffered_counterexample :
    (renderCell [⟨"read_inorder", 1024, 4, 1⟩] "" "read" "inorder").map
        (fun ps => ps.map PlotLine.solid) = some [true] ∧
    ¬ ∃ ps pl, renderCell [⟨"read_inorder", 1024, 4, 1⟩] "" "read" "inorder" = some ps ∧
        pl ∈ ps ∧ pl.solid = false := by
  have h : (renderCell [⟨"read_inorder", 1024, 4, 1⟩] "" "read" "inorder").map
      (fun ps => ps.map PlotLine.solid) = some [true] := by rfl
  refine ⟨h, ?_⟩
  rintro ⟨ps, pl, hps, hmem, hsolid⟩
  rw [hps] at h
  simp only [Option.map_some', Option.some.injEq] at h
  have hmm : pl.solid ∈ ps.map PlotLine.solid := List.mem_map_of_mem _ hmem
  rw [h, hsolid] at hmm
  simp at hmm

/-- C3 (amended): a key with no matching records at all is treated as a
data-completeness signal — the renderer completes and simply draws nothing
for that cell — but a matching record with runtime 0 makes the `throughputs`
comprehension divide by zero and the aggregation raise: the code relies on
the `runtime > 0` invariant instead of skipping degenerate records. -/
theorem degenerate_record_policy (results : List ResultRecord) (tp mode ord : String) :
    ((∀ r ∈ results, r.name ≠ variantName tp true mode ord ∧
        r.name ≠ variantName tp false mode ord) →
      renderCell results tp mode ord = some []) ∧
    ((∃ r ∈ results, (r.name = variantName tp true mode ord ∨
        r.name = variantName tp false mode ord) ∧ r.runtime = 0) →
      renderCell results tp mode ord = none) := by
  constructor
  · intro habs
    have hB : sizesFor results (variantName tp true mode ord) = [] := by
      simp only [sizesFor, List.map_eq_nil_iff, List.filter_eq_nil_iff]
      intro r hr
      simpa using (habs r hr).1
    have hU : sizesFor results (variantName tp false mode ord) = [] := by
      simp only [sizesFor, List.map_eq_nil_iff, List.filter_eq_nil_iff]
      intro r hr
      simpa using (habs r hr).2
    have h1 := plotVariant_empty results tp mode ord true true hB
    have h2 := plotVariant_empty results tp mode ord false false hU
    simp [renderCell, h1, h2]
  · rintro ⟨r, hr, hname | hname, hz⟩
    · have hT := throughputsFor_eq_none results _ r hr hname hz
      have h1 := plotVariant_of_throughputsFor_none results tp mode ord true true hT
      simp [renderCell, h1]
    · rcases e : plotVariant results tp mode ord true true with _ | ⟨wb, p⟩
      · simp [renderCell, e]
      · have hT := throughputsFor_eq_none results _ r hr hname hz
        have h2 := plotVariant_of_throughputsFor_none results tp mode ord false wb hT
        simp [renderCell, e, h2]

/-- Witness for `degenerate_record_policy`: a cell whose key matches nothing
renders empty; a cell with a zero-runtime matching record raises. -/
theorem degenerate_record_policy_witness :
    renderCell [⟨"other", 1024, 4, 1⟩] "" "read" "inorder" = some [] ∧
    renderCell [⟨"read_inorder", 1024, 4, 0⟩] "" "read" "inorder" = none :=
  ⟨(degenerate_record_policy [⟨"other", 1024, 4, 1⟩] "" "read" "inorder").1 (by decide),
   (degenerate_record_policy [⟨"read_inorder", 1024, 4, 0⟩] "" "read" "inorder").2
     (by decide)⟩

/-- C3 (counterexample): the claim says the Aggregator does not raise on a
zero-runtime record. On a concrete single zero-runtime record both the
`throughputs` comprehension and the whole cell rendering raise
(`ZeroDivisionError`, modelled as `none`). -/
theorem zero_runtime_counterexample :
    throughputsFor [⟨"read_inorder", 1024, 512, 0⟩] "read_inorder" = none ∧
    renderCell [⟨"read_inorder", 1024, 512, 0⟩] "" "read" "inorder" = none := by
  constructor <;> rfl

end VfsBench
